import Mathlib

/-!
Verification of the Qwen protocol-adapter core of this repository: the
streaming tool-call accumulator (`processStreamResponse` /
`createToolCallResponse` in the qwen content generator), the argument-repair
routine shared with the non-streaming translator, and the `enable_thinking`
request-body handling.

The embedding follows the most complete accumulator variant in the source
(the one with index-keyed slots, early-completion flush and the one-shot
`hasOutputToolCalls` flag), which is the variant the specification
standardizes on.  JavaScript strings are Lean `String`s, JS `undefined`
is `Option.none`, JS truthiness of a string value is "present and
non-empty".  `Date.now()` is modelled by a monotone counter threaded through
the state (`clock`); `Math.random()`-based fallback identifiers are modelled
by an opaque suffix, and are only reachable from states that store an empty
id, which the accumulator never creates.

JSON values are modelled with numbers kept as their source lexeme (the
claims under study never compare numeric values, so IEEE-754 semantics are
not needed), and objects as their member list in source order.
-/

/-- JSON values as produced by `JSON.parse`.  Numbers keep their lexeme;
objects keep their members in source order. -/
inductive Json where
  | null : Json
  | bool (b : Bool) : Json
  | num (lexeme : String) : Json
  | str (s : String) : Json
  | arr (elems : List Json) : Json
  | obj (members : List (String × Json)) : Json

/-- JSON insignificant whitespace (space, tab, line feed, carriage return). -/
def isJsonWs (c : Char) : Bool :=
  c = ' ' || c = '\t' || c = '\n' || c = '\r'

/-- Drop leading JSON whitespace. -/
def skipWs : List Char → List Char
  | [] => []
  | c :: cs => if isJsonWs c then skipWs cs else c :: cs

/-- Value of one hexadecimal digit. -/
def hexVal (c : Char) : Option Nat :=
  if '0' ≤ c ∧ c ≤ '9' then some (c.toNat - '0'.toNat)
  else if 'a' ≤ c ∧ c ≤ 'f' then some (c.toNat - 'a'.toNat + 10)
  else if 'A' ≤ c ∧ c ≤ 'F' then some (c.toNat - 'A'.toNat + 10)
  else none

/-- Parse the body of a JSON string literal (after the opening quote),
decoding the standard escapes.  Returns the decoded string and the input
remaining after the closing quote. -/
def parseStringBody (acc : List Char) : List Char → Option (String × List Char)
  | [] => none
  | '"' :: cs => some (String.mk acc.reverse, cs)
  | '\\' :: rest =>
    match rest with
    | [] => none
    | e :: cs2 =>
      if e = '"' then parseStringBody ('"' :: acc) cs2
      else if e = '\\' then parseStringBody ('\\' :: acc) cs2
      else if e = '/' then parseStringBody ('/' :: acc) cs2
      else if e = 'b' then parseStringBody ('\x08' :: acc) cs2
      else if e = 'f' then parseStringBody ('\x0c' :: acc) cs2
      else if e = 'n' then parseStringBody ('\n' :: acc) cs2
      else if e = 'r' then parseStringBody ('\x0d' :: acc) cs2
      else if e = 't' then parseStringBody ('\t' :: acc) cs2
      else if e = 'u' then
        match cs2 with
        | h1 :: h2 :: h3 :: h4 :: cs3 =>
          match hexVal h1, hexVal h2, hexVal h3, hexVal h4 with
          | some a, some b, some c, some d =>
            parseStringBody (Char.ofNat (((a * 16 + b) * 16 + c) * 16 + d) :: acc) cs3
          | _, _, _, _ => none
        | _ => none
      else none
  | c :: cs => if c.toNat < 32 then none else parseStringBody (c :: acc) cs

/-- Longest prefix of decimal digits. -/
def spanDigits : List Char → List Char × List Char
  | [] => ([], [])
  | c :: cs =>
    if c.isDigit then
      let p := spanDigits cs
      (c :: p.1, p.2)
    else ([], c :: cs)

/-- Parse the optional exponent part of a JSON number lexeme; `acc` is the
lexeme collected so far. -/
def parseExpPart (acc : List Char) (cs : List Char) : Option (List Char × List Char) :=
  match cs with
  | e :: rest =>
    if e = 'e' ∨ e = 'E' then
      match rest with
      | '+' :: r2 =>
        match r2 with
        | d :: r3 =>
          if d.isDigit then
            let p := spanDigits r3
            some (acc ++ e :: '+' :: d :: p.1, p.2)
          else none
        | [] => none
      | '-' :: r2 =>
        match r2 with
        | d :: r3 =>
          if d.isDigit then
            let p := spanDigits r3
            some (acc ++ e :: '-' :: d :: p.1, p.2)
          else none
        | [] => none
      | d :: r3 =>
        if d.isDigit then
          let p := spanDigits r3
          some (acc ++ e :: d :: p.1, p.2)
        else none
      | [] => none
    else some (acc, cs)
  | [] => some (acc, [])

/-- Parse the optional fraction and exponent parts of a JSON number lexeme. -/
def parseFracExp (acc : List Char) (cs : List Char) : Option (List Char × List Char) :=
  match cs with
  | '.' :: r =>
    match r with
    | d :: r2 =>
      if d.isDigit then
        let p := spanDigits r2
        parseExpPart (acc ++ '.' :: d :: p.1) p.2
      else none
    | [] => none
  | _ => parseExpPart acc cs

/-- Parse a JSON number lexeme (JSON grammar: no leading zeros, optional
minus, fraction, exponent). -/
def parseNumberLex (cs : List Char) : Option (List Char × List Char) :=
  match cs with
  | '-' :: r =>
    (match r with
     | '0' :: r2 => parseFracExp ['-', '0'] r2
     | c :: r2 =>
       if c.isDigit then
         let p := spanDigits r2
         parseFracExp ('-' :: c :: p.1) p.2
       else none
     | [] => none)
  | '0' :: r2 => parseFracExp ['0'] r2
  | c :: r2 =>
    if c.isDigit then
      let p := spanDigits r2
      parseFracExp (c :: p.1) p.2
    else none
  | [] => none

/-- Match a literal keyword tail ("rue", "alse", "ull"). -/
def stripKeyword : List Char → List Char → Option (List Char)
  | [], cs => some cs
  | p :: ps, c :: cs => if c = p then stripKeyword ps cs else none
  | _ :: _, [] => none

mutual

/-- Fuel-indexed JSON value parser (recursive descent, as `JSON.parse`). -/
def parseValue (fuel : Nat) (cs : List Char) : Option (Json × List Char) :=
  match fuel with
  | 0 => none
  | fuel + 1 =>
    match skipWs cs with
    | [] => none
    | '\x7b' :: rest =>
      (match skipWs rest with
       | '\x7d' :: rest2 => some (Json.obj [], rest2)
       | rest2 => (parseMembers fuel rest2).map (fun p => (Json.obj p.1, p.2)))
    | '[' :: rest =>
      (match skipWs rest with
       | ']' :: rest2 => some (Json.arr [], rest2)
       | rest2 => (parseElements fuel rest2).map (fun p => (Json.arr p.1, p.2)))
    | '"' :: rest => (parseStringBody [] rest).map (fun p => (Json.str p.1, p.2))
    | 't' :: rest => (stripKeyword ['r', 'u', 'e'] rest).map (fun r => (Json.bool true, r))
    | 'f' :: rest => (stripKeyword ['a', 'l', 's', 'e'] rest).map (fun r => (Json.bool false, r))
    | 'n' :: rest => (stripKeyword ['u', 'l', 'l'] rest).map (fun r => (Json.null, r))
    | c :: rest => (parseNumberLex (c :: rest)).map (fun p => (Json.num (String.mk p.1), p.2))

/-- Fuel-indexed parser for the members of a JSON object (positioned after
the opening brace, first member expected). -/
def parseMembers (fuel : Nat) (cs : List Char) : Option (List (String × Json) × List Char) :=
  match fuel with
  | 0 => none
  | fuel + 1 =>
    match skipWs cs with
    | '"' :: rest =>
      (match parseStringBody [] rest with
       | none => none
       | some (key, r1) =>
         match skipWs r1 with
         | ':' :: r2 =>
           (match parseValue fuel r2 with
            | none => none
            | some (v, r3) =>
              match skipWs r3 with
              | ',' :: r4 => (parseMembers fuel r4).map (fun p => ((key, v) :: p.1, p.2))
              | '\x7d' :: r4 => some ([(key, v)], r4)
              | _ => none)
         | _ => none)
    | _ => none

/-- Fuel-indexed parser for the elements of a JSON array (positioned after
the opening bracket, first element expected). -/
def parseElements (fuel : Nat) (cs : List Char) : Option (List Json × List Char) :=
  match fuel with
  | 0 => none
  | fuel + 1 =>
    match parseValue fuel cs with
    | none => none
    | some (v, r1) =>
      match skipWs r1 with
      | ',' :: r2 => (parseElements fuel r2).map (fun p => (v :: p.1, p.2))
      | ']' :: r2 => some ([v], r2)
      | _ => none

end

/-- `JSON.parse`: parse a complete JSON document; trailing content other
than whitespace is an error. -/
def Json.parse (s : String) : Option Json :=
  match parseValue (2 * s.data.length + 2) s.data with
  | some (j, rest) => if (skipWs rest).isEmpty then some j else none
  | none => none

/-- Whitespace class used by JS `String.prototype.trim` and the `\s` regex
class (restricted to the characters that can occur in this adapter's data). -/
def isJsTrimWs (c : Char) : Bool :=
  c = ' ' || c = '\t' || c = '\n' || c = '\x0d' || c = '\x0b' || c = '\x0c'

/-- Drop leading JS whitespace from a character list. -/
def dropLeadingWs : List Char → List Char
  | [] => []
  | c :: cs => if isJsTrimWs c then dropLeadingWs cs else c :: cs

/-- JS `String.prototype.trim`. -/
def jsTrim (s : String) : String :=
  String.mk ((dropLeadingWs (dropLeadingWs s.data).reverse).reverse)

/-- Is the first character of the list the given one? -/
def headIs : List Char → Char → Bool
  | [], _ => false
  | d :: _, c => d = c

/-- Does the string start with the given character? -/
def strStartsWithChar (s : String) (c : Char) : Bool :=
  headIs s.data c

/-- Does the string end with the given character? -/
def strEndsWithChar (s : String) (c : Char) : Bool :=
  headIs s.data.reverse c

/-- Does the string end with the given character sequence? -/
def strEndsWithSeq (s : String) (suffix : List Char) : Bool :=
  List.isSuffixOf suffix s.data

/-- JS `s.replace(/,\s*$/, "")`: remove one trailing comma together with any
whitespace after it; if the string does not end that way it is unchanged. -/
def stripTrailingCommaWs (s : String) : String :=
  match dropLeadingWs s.data.reverse with
  | ',' :: rest => String.mk rest.reverse
  | _ => s

/-- Fix-up stage 1 of the repair: strip one trailing comma (the source
tests for a trailing comma or a dangling quote-comma). -/
def stripDanglingComma (f0 : String) : String :=
  if strEndsWithChar f0 ',' || strEndsWithSeq f0 ['"', ','] then stripTrailingCommaWs f0 else f0

/-- Fix-up stage 2: append a missing closing brace. -/
def closeBrace (f1 : String) : String :=
  if strStartsWithChar f1 '\x7b' && !strEndsWithChar f1 '\x7d' then f1 ++ "\x7d" else f1

/-- Fix-up stage 3: append a missing closing bracket. -/
def closeBracket (f2 : String) : String :=
  if strStartsWithChar f2 '[' && !strEndsWithChar f2 ']' then f2 ++ "]" else f2

/-- The sequential fix-ups applied to the trimmed argument string. -/
def repairFixup (f0 : String) : String :=
  closeBracket (closeBrace (stripDanglingComma f0))

/-- The argument-repair routine, shared verbatim between the non-streaming
translator (`fromQwenGenerateResponse`) and the streaming flush
(`createToolCallResponse`): try `JSON.parse` as-is; on failure trim, apply
the sequential fix-ups and retry; on failure fall back to a
`_raw_arguments` wrapper object for non-blank input and to the empty object
otherwise. -/
def repairArguments (raw : String) : Json :=
  match Json.parse raw with
  | some j => j
  | none =>
    match Json.parse (repairFixup (jsTrim raw)) with
    | some j => j
    | none =>
      if (jsTrim raw).isEmpty then Json.obj []
      else Json.obj [("_raw_arguments", Json.str raw)]

/-!
The streaming accumulator (`processStreamResponse` in the qwen content
generator, most complete variant: index-keyed slots, early-completion flush,
one-shot `hasOutputToolCalls` flag).  The SSE byte layer is abstracted to the
ordered list of decoded `data:` events of one turn: a parsed chunk, the
`[DONE]` sentinel, or an unparsable line (logged and skipped).  Only
`choices[0]` of a chunk is inspected, as in the source.
-/

/-- JS truthiness of an optional string field: present and non-empty. -/
def truthy : Option String → Bool
  | some s => !s.isEmpty
  | none => false

/-- One element of a delta's `tool_calls` array: positional `index`,
optional `id` and `type`, optional `function.name` and a
`function.arguments` substring to append. -/
structure ToolCallFragment where
  index : Option Nat
  id : Option String
  ftype : Option String
  name : Option String
  arguments : Option String
deriving DecidableEq

/-- A pending tool call tracked by the accumulator (one value of the
`accumulatedToolCalls` map): carried-through id, type, optional name and the
arguments buffer. -/
structure PendingToolCall where
  id : String
  ftype : String
  name : Option String
  arguments : Option String
deriving DecidableEq

/-- The accumulator state of one streaming turn: the `accumulatedToolCalls`
map in insertion order, the one-shot `hasOutputToolCalls` flag, and the
monotone counter standing in for `Date.now()`. -/
structure StreamState where
  calls : List (String × PendingToolCall)
  emitted : Bool
  clock : Nat
deriving DecidableEq

/-- The accumulator state at the start of a turn. -/
def initStreamState : StreamState := ⟨[], false, 0⟩

/-- Look a slot key up in the tracked map (first match, as a JS `Map`). -/
def findCall : List (String × PendingToolCall) → String → Option PendingToolCall
  | [], _ => none
  | (k, tc) :: rest, key => if k = key then some tc else findCall rest key

/-- Membership test on the tracked map (`accumulatedToolCalls.has`). -/
def hasCall (cs : List (String × PendingToolCall)) (key : String) : Bool :=
  (findCall cs key).isSome

/-- Update the entry at a key in place, preserving insertion order. -/
def updateCall : List (String × PendingToolCall) → String → (PendingToolCall → PendingToolCall) →
    List (String × PendingToolCall)
  | [], _, _ => []
  | (k, tc) :: rest, key, f =>
    if k = key then (k, f tc) :: rest else (k, tc) :: updateCall rest key f

/-- Resolve a fragment's slot key: prefer the positional index
(`tool_<index>`), else a truthy provided id, else a fresh
`tool_<Date.now()>` key (the counter is bumped when consumed).  Returns the
key and the updated counter. -/
def resolveSlotKey (clock : Nat) (frag : ToolCallFragment) : String × Nat :=
  match frag.index with
  | some i => ("tool_" ++ toString i, clock)
  | none =>
    match frag.id with
    | some s => if s.isEmpty then ("tool_" ++ toString clock, clock + 1) else (s, clock)
    | none => ("tool_" ++ toString clock, clock + 1)

/-- Apply one fragment to a tracked call: overwrite the name whenever the
fragment carries a truthy one, and append truthy argument text to the
buffer. -/
def applyFragment (tc : PendingToolCall) (frag : ToolCallFragment) : PendingToolCall :=
  let tc1 := if truthy frag.name then { tc with name := frag.name } else tc
  if truthy frag.arguments then
    { tc1 with arguments := some ((tc1.arguments.getD "") ++ (frag.arguments.getD "")) }
  else tc1

/-- The entry created on first sight of a slot: it carries the provided id
if truthy, else the slot key, and the provided type if truthy, else
"function"; name and arguments start unset. -/
def freshCall (key : String) (frag : ToolCallFragment) : PendingToolCall :=
  { id := if truthy frag.id then frag.id.getD "" else key
    ftype := if truthy frag.ftype then frag.ftype.getD "" else "function"
    name := none
    arguments := none }

/-- Process one fragment of a delta's `tool_calls` array: resolve the slot
key, create the entry on first sight, then apply the fragment's name and
argument text. -/
def upsertFragment (st : StreamState) (frag : ToolCallFragment) : StreamState :=
  if hasCall st.calls (resolveSlotKey st.clock frag).1 then
    { st with
      calls := updateCall st.calls (resolveSlotKey st.clock frag).1
        (fun tc => applyFragment tc frag)
      clock := (resolveSlotKey st.clock frag).2 }
  else
    { st with
      calls := st.calls ++
        [((resolveSlotKey st.clock frag).1,
          applyFragment (freshCall (resolveSlotKey st.clock frag).1 frag) frag)]
      clock := (resolveSlotKey st.clock frag).2 }

/-- `isValidJson`: does the string parse as JSON? -/
def isValidJson (s : String) : Bool :=
  (Json.parse s).isSome

/-- One tracked call passes the early-completion check when its name is
truthy AND its arguments buffer is truthy AND parses as valid JSON (note:
an absent or empty buffer fails this check). -/
def toolCallComplete (tc : PendingToolCall) : Bool :=
  truthy tc.name && truthy tc.arguments && isValidJson (tc.arguments.getD "")

/-- `allToolCallsComplete`: the early-completion check over every tracked
call. -/
def allToolCallsComplete (st : StreamState) : Bool :=
  st.calls.all (fun p => toolCallComplete p.2)

/-- `isToolCallReady`: a call is ready when it has a truthy name and either
no argument text or argument text that parses as valid JSON. -/
def isToolCallReady (tc : PendingToolCall) : Bool :=
  if !truthy tc.name then false
  else if !truthy tc.arguments then true
  else isValidJson (tc.arguments.getD "")

/-- A finalized function call handed to the agent. -/
structure FunctionCall where
  id : String
  name : String
  args : Json

/-- JS `a || b` on strings: the fallback when the first is empty. -/
def jsOrString (s fallback : String) : String :=
  if s.isEmpty then fallback else s

/-- Build the finalized `FunctionCall` for one ready tracked call: repair
the argument buffer when truthy (else the empty object), default the name
to "unknown_function", and keep the stored id ( `Date.now()`/
`Math.random()` fallback modelled opaquely; it is reachable only from an
empty stored id, which the accumulator never creates). -/
def mkFunctionCall (tc : PendingToolCall) : FunctionCall :=
  let args := if truthy tc.arguments then repairArguments (tc.arguments.getD "") else Json.obj []
  let functionName :=
    match tc.name with
    | some n => if n.isEmpty then "unknown_function" else n
    | none => "unknown_function"
  { id := jsOrString tc.id (functionName ++ "-date-now-random")
    name := functionName
    args := args }

/-- `createToolCallResponse`: filter the tracked calls to the ready ones and
finalize each, in insertion order.  An empty result models the source's
fallback response that carries no function calls. -/
def createToolCallResponse (cs : List (String × PendingToolCall)) : List FunctionCall :=
  (cs.filter (fun p => isToolCallReady p.2)).map (fun p => mkFunctionCall p.2)

/-- One `choices[0]` record of a decoded chunk: optional `delta.content`
text, the `delta.tool_calls` fragments, and the optional `finish_reason`. -/
structure DeltaChoice where
  content : Option String
  toolCalls : List ToolCallFragment
  finishReason : Option String
deriving DecidableEq

/-- One decoded `data:` event of the SSE stream. -/
inductive StreamItem where
  | chunk (choices : List DeltaChoice)
  | doneSentinel
  | malformedLine
deriving DecidableEq

/-- A response the generator yields to its caller: a text-only fragment, or
the result of `createToolCallResponse`. -/
inductive Emission where
  | text (content : String)
  | toolResponse (calls : List FunctionCall)

/-- Truthiness of a chunk's text content as the source tests it:
`content && content.trim()`. -/
def contentTruthy (c : Option String) : Bool :=
  match c with
  | some s => !s.isEmpty && !(jsTrim s).isEmpty
  | none => false

/-- Process one stream event.  Returns the emissions it yields, the updated
state, and whether the generator returns (stops consuming the stream).
Mirrors the source's per-line dispatch: `[DONE]` flushes (once) and stops; a
chunk with tool-call fragments accumulates them, then flushes early when all
tracked calls are complete, and skips the rest of the dispatch; otherwise a
truthy finish reason forwards trailing text, flushes (once) and stops; and
otherwise truthy text is forwarded immediately. -/
def processStreamItem (st : StreamState) : StreamItem → List Emission × StreamState × Bool
  | StreamItem.malformedLine => ([], st, false)
  | StreamItem.doneSentinel =>
    if !st.calls.isEmpty && !st.emitted then
      ([Emission.toolResponse (createToolCallResponse st.calls)], { st with emitted := true }, true)
    else ([], st, true)
  | StreamItem.chunk [] => ([], st, false)
  | StreamItem.chunk (choice :: _) =>
    if !choice.toolCalls.isEmpty then
      if allToolCallsComplete (choice.toolCalls.foldl upsertFragment st) &&
          !(choice.toolCalls.foldl upsertFragment st).calls.isEmpty &&
          !(choice.toolCalls.foldl upsertFragment st).emitted then
        ([Emission.toolResponse
            (createToolCallResponse (choice.toolCalls.foldl upsertFragment st).calls)],
          { choice.toolCalls.foldl upsertFragment st with emitted := true }, false)
      else ([], choice.toolCalls.foldl upsertFragment st, false)
    else if truthy choice.finishReason then
      if !st.calls.isEmpty && !st.emitted then
        ((if contentTruthy choice.content then [Emission.text (choice.content.getD "")] else []) ++
            [Emission.toolResponse (createToolCallResponse st.calls)],
          { st with emitted := true }, true)
      else
        ((if contentTruthy choice.content then [Emission.text (choice.content.getD "")] else []),
          st, true)
    else
      ((if contentTruthy choice.content then [Emission.text (choice.content.getD "")] else []),
        st, false)

/-- Drive the accumulator over a list of stream events, stopping early when
an event makes the generator return. -/
def processStreamItems (st : StreamState) : List StreamItem → List Emission × StreamState × Bool
  | [] => ([], st, false)
  | item :: rest =>
    if (processStreamItem st item).2.2 then processStreamItem st item
    else
      ((processStreamItem st item).1 ++
          (processStreamItems (processStreamItem st item).2.1 rest).1,
        (processStreamItems (processStreamItem st item).2.1 rest).2.1,
        (processStreamItems (processStreamItem st item).2.1 rest).2.2)

/-- The flush performed when the reader reports end of stream (and,
with the identical guard, the best-effort flush of the error path): emit the
accumulated calls if any are tracked and none were emitted yet. -/
def endOfStreamFlush (st : StreamState) : List Emission :=
  if !st.calls.isEmpty && !st.emitted then
    [Emission.toolResponse (createToolCallResponse st.calls)]
  else []

/-- `processStreamResponse`: one full streaming turn over the decoded
events, with the end-of-stream flush when the event list is exhausted
without an explicit terminal event. -/
def processStreamResponse (items : List StreamItem) : List Emission :=
  (processStreamItems initStreamState items).1 ++
    (if (processStreamItems initStreamState items).2.2 then []
     else endOfStreamFlush (processStreamItems initStreamState items).2.1)

/-- A turn aborted by a transport error after the given events: the catch
block performs the best-effort flush (same guard as the end-of-stream
flush) before the error propagates. -/
def processStreamAborted (items : List StreamItem) : List Emission :=
  (processStreamItems initStreamState items).1 ++
    (if (processStreamItems initStreamState items).2.2 then []
     else endOfStreamFlush (processStreamItems initStreamState items).2.1)

/-- The text contents among a list of emissions, in order. -/
def textEmissions : List Emission → List String
  | [] => []
  | Emission.text s :: rest => s :: textEmissions rest
  | Emission.toolResponse _ :: rest => textEmissions rest

/-- The number of `createToolCallResponse` emissions in a list. -/
def countToolResponses : List Emission → Nat
  | [] => 0
  | Emission.text _ :: rest => countToolResponses rest
  | Emission.toolResponse _ :: rest => countToolResponses rest + 1

/-- Does a stream event carry tool-call fragments (in `choices[0]`)? -/
def itemHasToolFragments : StreamItem → Bool
  | StreamItem.chunk (choice :: _) => !choice.toolCalls.isEmpty
  | _ => false

/-- Definition following the spec's words, for comparison with the
implementation's text forwarding (the amended C7 refinement): the text
fragments of one turn are exactly the non-whitespace contents of the
tool-call-free deltas, in arrival order, each forwarded at its own delta,
up to and including a terminal finish-reason delta, with nothing after a
terminal event and nothing from the `[DONE]` sentinel. -/
def specTextTrace : List StreamItem → List String
  | [] => []
  | StreamItem.malformedLine :: rest => specTextTrace rest
  | StreamItem.doneSentinel :: _ => []
  | StreamItem.chunk [] :: rest => specTextTrace rest
  | StreamItem.chunk (choice :: _) :: rest =>
    if !choice.toolCalls.isEmpty then specTextTrace rest
    else if truthy choice.finishReason then
      (if contentTruthy choice.content then [choice.content.getD ""] else [])
    else
      (if contentTruthy choice.content then [choice.content.getD ""] else []) ++ specTextTrace rest

/-!
The `enable_thinking` toggle on the outbound request bodies.  The converter
side is embedded from `toQwenGenerateRequest` in the source converter
variant that declares the `enable_thinking` field: whenever the request
carries a generation config, the converter explicitly sets
`enable_thinking = false` — regardless of the stream flag and of any
caller-supplied reasoning value.  The body construction is embedded from
the generator sources: the current generator omits the key from the
non-streaming body and spreads it into the streaming body exactly when the
converted request defines it, while the older generator variant hard-codes
`enable_thinking: false` into both bodies.  Fields that are copied through
unchanged and play no part in the claims (model, messages, tuning
parameters, tools, response format) are omitted from the model.
-/

/-- The caller-visible generation config, reduced to the caller's optional
reasoning toggle (`thinkingConfig`); the converter ignores it when setting
`enable_thinking`. -/
structure GenConfigModel where
  thinking : Option Bool

/-- The caller-visible generation request: an optional generation config. -/
structure GenRequestModel where
  config : Option GenConfigModel

/-- The converted Qwen request, reduced to the stream flag and the optional
`enable_thinking` field. -/
structure QwenRequestModel where
  stream : Bool
  enable_thinking : Option Bool

/-- `toQwenGenerateRequest`, reduced to its `enable_thinking` handling as
the source converter writes it: inside the `if (params.config)` block the
field is always explicitly set to `false` (the source comments that all
Qwen calls should disable thinking mode), ignoring any caller-supplied
reasoning value; without a config the field stays undefined. -/
def toQwenGenerateRequest (req : GenRequestModel) (stream : Bool) : QwenRequestModel :=
  { stream := stream
    enable_thinking :=
      match req.config with
      | some _ => some false
      | none => none }

/-- The outbound wire request body, reduced to the stream flag and the
optional `enable_thinking` field (`none` means the key is absent from the
JSON body). -/
structure WireBody where
  stream : Bool
  enable_thinking : Option Bool

/-- The body of a non-streaming `/chat/completions` call as the current
generator builds it: `stream: false` and no `enable_thinking` key at all
(the source omits it to avoid the backend's rejection of the parameter on
non-streaming calls). -/
def generateContentBody (_req : GenRequestModel) : WireBody :=
  { stream := false
    enable_thinking := none }

/-- The body of a streaming `/chat/completions` call as the current
generator builds it: `stream: true` and the `enable_thinking` key spread in
exactly when the converted request defines it. -/
def generateContentStreamBody (req : GenRequestModel) : WireBody :=
  { stream := true
    enable_thinking := (toQwenGenerateRequest req true).enable_thinking }

/-- The body of a non-streaming call as the older generator variant builds
it: `enable_thinking: false` is hard-coded into the body. -/
def generateContentBodyLegacy (_req : GenRequestModel) : WireBody :=
  { stream := false
    enable_thinking := some false }

/-- The body of a streaming call as the older generator variant builds it:
`enable_thinking: false` is hard-coded into the body. -/
def generateContentStreamBodyLegacy (_req : GenRequestModel) : WireBody :=
  { stream := true
    enable_thinking := some false }

/-!
Helper lemmas about the accumulator, shared by the claim theorems.
-/

/-- Upserting a fragment never touches the one-shot emission flag. -/
theorem upsertFragment_emitted (st : StreamState) (frag : ToolCallFragment) :
    (upsertFragment st frag).emitted = st.emitted := by
  unfold upsertFragment
  split <;> rfl

/-- Folding any fragment list over the state never touches the one-shot
emission flag. -/
theorem foldl_upsert_emitted (frags : List ToolCallFragment) (st : StreamState) :
    (frags.foldl upsertFragment st).emitted = st.emitted := by
  induction frags generalizing st with
  | nil => rfl
  | cons f fs ih => simpa [List.foldl_cons, upsertFragment_emitted] using ih (upsertFragment st f)

/-- In-place update preserves emptiness of the tracked map. -/
theorem updateCall_isEmpty (cs : List (String × PendingToolCall)) (key : String)
    (f : PendingToolCall → PendingToolCall) :
    (updateCall cs key f).isEmpty = cs.isEmpty := by
  cases cs with
  | nil => rfl
  | cons hd tl =>
    unfold updateCall
    split <;> rfl

/-- Upserting a fragment leaves the tracked map non-empty. -/
theorem upsertFragment_calls_ne (st : StreamState) (frag : ToolCallFragment) :
    (upsertFragment st frag).calls.isEmpty = false := by
  unfold upsertFragment
  split
  case isTrue h =>
    show (updateCall st.calls _ _).isEmpty = false
    rw [updateCall_isEmpty]
    cases hc : st.calls with
    | nil => rw [hc] at h; simp [hasCall, findCall] at h
    | cons a b => rfl
  case isFalse h =>
    show (st.calls ++ _).isEmpty = false
    simp [List.isEmpty_iff]

/-- Once the tracked map is non-empty, folding fragments keeps it
non-empty. -/
theorem foldl_upsert_calls_ne (frags : List ToolCallFragment) (st : StreamState)
    (h : st.calls.isEmpty = false) :
    (frags.foldl upsertFragment st).calls.isEmpty = false := by
  induction frags generalizing st with
  | nil => simpa using h
  | cons f fs ih =>
    simpa [List.foldl_cons] using ih (upsertFragment st f) (upsertFragment_calls_ne st f)

/-- Folding a non-empty fragment list over any state leaves the tracked
map non-empty. -/
theorem foldl_upsert_calls_ne_of_frags (frags : List ToolCallFragment) (st : StreamState)
    (h : frags.isEmpty = false) :
    (frags.foldl upsertFragment st).calls.isEmpty = false := by
  cases frags with
  | nil => simp at h
  | cons f fs =>
    simpa [List.foldl_cons] using foldl_upsert_calls_ne fs (upsertFragment st f)
      (upsertFragment_calls_ne st f)

/-- Counting tool-call emissions distributes over concatenation. -/
theorem countToolResponses_append (a b : List Emission) :
    countToolResponses (a ++ b) = countToolResponses a + countToolResponses b := by
  induction a with
  | nil => simp [countToolResponses]
  | cons e rest ih =>
    cases e with
    | text s => simp [countToolResponses, ih]
    | toolResponse c => simp [countToolResponses, ih]; omega

/-- Text extraction distributes over concatenation. -/
theorem textEmissions_append (a b : List Emission) :
    textEmissions (a ++ b) = textEmissions a ++ textEmissions b := by
  induction a with
  | nil => simp [textEmissions]
  | cons e rest ih => cases e <;> simp [textEmissions, ih]

/-- The end-of-stream (and best-effort) flush contributes no text. -/
theorem textEmissions_endOfStreamFlush (st : StreamState) :
    textEmissions (endOfStreamFlush st) = [] := by
  unfold endOfStreamFlush
  split <;> rfl

/-- Looking up an in-place-updated map: the updated key's entry is mapped,
every other key is untouched (first-match semantics on both sides). -/
theorem findCall_updateCall (cs : List (String × PendingToolCall)) (k key : String)
    (f : PendingToolCall → PendingToolCall) :
    findCall (updateCall cs k f) key =
      if key = k then (findCall cs k).map f else findCall cs key := by
  induction cs with
  | nil => simp only [updateCall, findCall, Option.map_none]; split <;> rfl
  | cons hd tl ih =>
    obtain ⟨k0, tc⟩ := hd
    simp only [updateCall]
    by_cases h1 : k0 = k
    · subst h1
      rw [if_pos rfl]
      simp only [findCall]
      by_cases h2 : k0 = key
      · subst h2
        simp [findCall]
      · have h2s : ¬key = k0 := fun h => h2 h.symm
        simp [findCall, h2, h2s]
    · rw [if_neg h1]
      simp only [findCall]
      by_cases h2 : k0 = key
      · subst h2
        have hks : ¬k0 = k := h1
        have : ¬(k0 = k) := h1
        rw [if_pos rfl]
        rw [if_neg (fun h : k0 = k => h1 h)]
        simp [findCall, if_neg h1]
      · rw [if_neg h2, ih]
        by_cases h3 : key = k
        · simp [h3, findCall, if_neg h1]
        · simp [h3, findCall, h2, if_neg h2]

/-- A successful lookup is stable under appending entries on the right. -/
theorem findCall_append_left (cs ds : List (String × PendingToolCall)) (key : String)
    (tc : PendingToolCall) (h : findCall cs key = some tc) :
    findCall (cs ++ ds) key = some tc := by
  induction cs with
  | nil => simp [findCall] at h
  | cons hd tl ih =>
    obtain ⟨k0, tc0⟩ := hd
    simp only [findCall, List.cons_append] at h ⊢
    by_cases h0 : k0 = key
    · rw [if_pos h0] at h ⊢; exact h
    · rw [if_neg h0] at h ⊢; exact ih h

/-- An absent key looks up to `none`. -/
theorem findCall_of_hasCall_false (cs : List (String × PendingToolCall)) (key : String)
    (h : hasCall cs key = false) : findCall cs key = none := by
  unfold hasCall at h
  cases hfc : findCall cs key with
  | none => rfl
  | some tc => rw [hfc] at h; simp at h

/-- How one fragment transforms one tracked entry: the id is preserved, the
name is overwritten exactly when the fragment carries a truthy name, and
the arguments buffer is extended by exactly the fragment's truthy argument
text. -/
theorem applyFragment_spec (tc : PendingToolCall) (frag : ToolCallFragment) :
    (applyFragment tc frag).id = tc.id ∧
    (applyFragment tc frag).ftype = tc.ftype ∧
    (applyFragment tc frag).name = (if truthy frag.name then frag.name else tc.name) ∧
    (applyFragment tc frag).arguments.getD "" =
      tc.arguments.getD "" ++ (if truthy frag.arguments then frag.arguments.getD "" else "") := by
  unfold applyFragment
  by_cases hn : truthy frag.name = true <;> by_cases ha : truthy frag.arguments = true <;>
    simp [hn, ha]

/-- A conditional singleton text emission contains no tool-call response. -/
theorem countToolResponses_textOut (c : Bool) (s : String) :
    countToolResponses (if c then [Emission.text s] else []) = 0 := by
  cases c <;> rfl

/-- One processing step emits at most one tool-call response; it emits none
when the one-shot flag is already set, and whenever it emits one the flag is
set afterwards.  The flag, once set, stays set. -/
theorem processStreamItem_count (st : StreamState) (item : StreamItem) :
    (st.emitted = true → countToolResponses (processStreamItem st item).1 = 0 ∧
      (processStreamItem st item).2.1.emitted = true) ∧
    countToolResponses (processStreamItem st item).1 ≤ 1 ∧
    (1 ≤ countToolResponses (processStreamItem st item).1 →
      (processStreamItem st item).2.1.emitted = true) := by
  cases item with
  | malformedLine => simp [processStreamItem, countToolResponses]
  | doneSentinel =>
    simp only [processStreamItem]
    split
    case isTrue hcond =>
      refine ⟨fun he => absurd hcond (by simp [he]), by simp [countToolResponses], fun _ => rfl⟩
    case isFalse hcond =>
      exact ⟨fun he => ⟨rfl, he⟩, by simp [countToolResponses], by simp [countToolResponses]⟩
  | chunk choices =>
    cases choices with
    | nil => simp [processStreamItem, countToolResponses]
    | cons choice rest =>
      simp only [processStreamItem]
      by_cases hfrags : (!choice.toolCalls.isEmpty) = true
      · rw [if_pos hfrags]
        split
        next hcond =>
          refine ⟨fun he => ?_, by simp [countToolResponses], fun _ => rfl⟩
          exfalso
          rw [foldl_upsert_emitted, he] at hcond
          simp at hcond
        next hcond =>
          refine ⟨fun he => ⟨rfl, ?_⟩, by simp [countToolResponses], by simp [countToolResponses]⟩
          rw [foldl_upsert_emitted]
          exact he
      · rw [if_neg hfrags]
        by_cases hfin : truthy choice.finishReason = true
        · rw [if_pos hfin]
          split
          next hcond =>
            refine ⟨fun he => absurd hcond (by simp [he]), ?_, fun _ => rfl⟩
            rw [countToolResponses_append, countToolResponses_textOut]
            simp [countToolResponses]
          next hcond =>
            refine ⟨fun he => ⟨countToolResponses_textOut _ _, he⟩, ?_, ?_⟩
            · rw [countToolResponses_textOut]; omega
            · rw [countToolResponses_textOut]; omega
        · rw [if_neg hfin]
          refine ⟨fun he => ⟨countToolResponses_textOut _ _, he⟩, ?_, ?_⟩
          · rw [countToolResponses_textOut]; omega
          · rw [countToolResponses_textOut]; omega

/-- Over a whole event list, at most one tool-call response is emitted; none
once the one-shot flag is set, and the flag records that one was emitted. -/
theorem processStreamItems_count (items : List StreamItem) (st : StreamState) :
    (st.emitted = true → countToolResponses (processStreamItems st items).1 = 0 ∧
      (processStreamItems st items).2.1.emitted = true) ∧
    countToolResponses (processStreamItems st items).1 ≤ 1 ∧
    (1 ≤ countToolResponses (processStreamItems st items).1 →
      (processStreamItems st items).2.1.emitted = true) := by
  induction items generalizing st with
  | nil => simp [processStreamItems, countToolResponses]
  | cons item rest ih =>
    obtain ⟨h1, h2, h3⟩ := processStreamItem_count st item
    obtain ⟨g1, g2, g3⟩ := ih (processStreamItem st item).2.1
    unfold processStreamItems
    split
    case isTrue hstop => exact ⟨h1, h2, h3⟩
    case isFalse hstop =>
      simp only [countToolResponses_append]
      constructor
      · intro he
        obtain ⟨e1, e2⟩ := h1 he
        obtain ⟨f1, f2⟩ := g1 e2
        exact ⟨by omega, f2⟩
      constructor
      · by_cases hone : 1 ≤ countToolResponses (processStreamItem st item).1
        · have := h3 hone
          obtain ⟨f1, f2⟩ := g1 this
          omega
        · omega
      · intro hsum
        by_cases hone : 1 ≤ countToolResponses (processStreamItem st item).1
        · exact (g1 (h3 hone)).2
        · have : 1 ≤ countToolResponses (processStreamItems (processStreamItem st item).2.1 rest).1 := by omega
          exact g3 this

/-- A conditional singleton text emission extracts to the matching
conditional singleton string. -/
theorem textEmissions_textOut (c : Bool) (s : String) :
    textEmissions (if c then [Emission.text s] else []) = (if c then [s] else []) := by
  cases c <;> rfl

/-- The text the accumulator forwards over any event list, from any state,
is exactly the spec's text trace: the non-whitespace contents of
tool-call-free deltas, in arrival order, up to the terminal event.  In
particular text forwarding never depends on the accumulation state. -/
theorem textEmissions_processStreamItems (items : List StreamItem) (st : StreamState) :
    textEmissions (processStreamItems st items).1 = specTextTrace items := by
  induction items generalizing st with
  | nil => rfl
  | cons item rest ih =>
    cases item with
    | malformedLine =>
      simp [processStreamItems, processStreamItem, textEmissions_append, textEmissions,
        specTextTrace, ih]
    | doneSentinel =>
      by_cases hc : (!st.calls.isEmpty && !st.emitted) = true
      · simp [processStreamItems, processStreamItem, hc, textEmissions, specTextTrace]
      · simp [processStreamItems, processStreamItem, hc, textEmissions, specTextTrace]
    | chunk choices =>
      cases choices with
      | nil =>
        simp [processStreamItems, processStreamItem, textEmissions_append, textEmissions,
          specTextTrace, ih]
      | cons choice tail =>
        by_cases hfrags : (!choice.toolCalls.isEmpty) = true
        · by_cases hcond : (allToolCallsComplete (choice.toolCalls.foldl upsertFragment st) &&
              !(choice.toolCalls.foldl upsertFragment st).calls.isEmpty &&
              !(choice.toolCalls.foldl upsertFragment st).emitted) = true
          · simp [processStreamItems, processStreamItem, hfrags, hcond, textEmissions_append,
              textEmissions, specTextTrace, ih]
          · simp [processStreamItems, processStreamItem, hfrags, hcond, textEmissions_append,
              textEmissions, specTextTrace, ih]
        · by_cases hfin : truthy choice.finishReason = true
          · by_cases hcond : (!st.calls.isEmpty && !st.emitted) = true
            · simp [processStreamItems, processStreamItem, hfrags, hfin, hcond,
                textEmissions_append, textEmissions, textEmissions_textOut, specTextTrace]
            · simp [processStreamItems, processStreamItem, hfrags, hfin, hcond,
                textEmissions_append, textEmissions, textEmissions_textOut, specTextTrace]
          · simp [processStreamItems, processStreamItem, hfrags, hfin, textEmissions_append,
              textEmissions, textEmissions_textOut, specTextTrace, ih]

/-- An event list with no tool-call fragments, processed from a state with
no tracked calls, yields no tool-call responses and ends with no tracked
calls. -/
theorem processStreamItems_no_frags (items : List StreamItem) (st : StreamState)
    (hitems : items.all (fun it => !itemHasToolFragments it) = true)
    (hcalls : st.calls.isEmpty = true) :
    countToolResponses (processStreamItems st items).1 = 0 ∧
    (processStreamItems st items).2.1.calls.isEmpty = true := by
  induction items generalizing st with
  | nil => exact ⟨rfl, hcalls⟩
  | cons item rest ih =>
    rw [List.all_cons, Bool.and_eq_true] at hitems
    obtain ⟨hh, ht⟩ := hitems
    cases item with
    | malformedLine =>
      simpa [processStreamItems, processStreamItem, countToolResponses_append,
        countToolResponses] using ih st ht hcalls
    | doneSentinel =>
      have hguard : (!st.calls.isEmpty && !st.emitted) = false := by
        rw [hcalls]; rfl
      simp [processStreamItems, processStreamItem, hguard, countToolResponses, hcalls]
    | chunk choices =>
      cases choices with
      | nil =>
        simpa [processStreamItems, processStreamItem, countToolResponses_append,
          countToolResponses] using ih st ht hcalls
      | cons choice tail =>
        have hfrags : (!choice.toolCalls.isEmpty) = false := by
          simpa [itemHasToolFragments] using hh
        by_cases hfin : truthy choice.finishReason = true
        · have hguard : (!st.calls.isEmpty && !st.emitted) = false := by
            rw [hcalls]; rfl
          simp [processStreamItems, processStreamItem, hfrags, hfin, hguard,
            countToolResponses_textOut, hcalls]
        · have := ih st ht hcalls
          simp [processStreamItems, processStreamItem, hfrags, hfin,
            countToolResponses_append, countToolResponses_textOut, this]

/-- How one fragment affects an already-tracked pending call: the entry
survives, its id is preserved, its arguments buffer is only ever extended
(never replaced or shortened), and its name either stays unchanged or is
overwritten with a name the fragment itself supplies. -/
theorem pending_call_evolution (st : StreamState) (frag : ToolCallFragment) (key : String)
    (tc : PendingToolCall) (h : findCall st.calls key = some tc) :
    ∃ tc2, findCall (upsertFragment st frag).calls key = some tc2 ∧
      (∃ ext, tc2.arguments.getD "" = tc.arguments.getD "" ++ ext) ∧
      tc2.id = tc.id ∧
      (tc2.name = tc.name ∨ (truthy frag.name = true ∧ tc2.name = frag.name)) := by
  unfold upsertFragment
  split
  case isTrue hk =>
    show ∃ tc2, findCall (updateCall st.calls _ _) key = some tc2 ∧ _
    rw [findCall_updateCall]
    by_cases hkey : key = (resolveSlotKey st.clock frag).1
    · rw [if_pos hkey, ← hkey, h]
      obtain ⟨hid, _, hname, hargs⟩ := applyFragment_spec tc frag
      refine ⟨applyFragment tc frag, rfl, ⟨_, hargs⟩, hid, ?_⟩
      by_cases hn : truthy frag.name = true
      · exact Or.inr ⟨hn, by rw [hname, if_pos hn]⟩
      · left
        rw [hname, if_neg hn]
    · rw [if_neg hkey, h]
      exact ⟨tc, rfl, ⟨"", by simp⟩, rfl, Or.inl rfl⟩
  case isFalse hk =>
    show ∃ tc2, findCall (st.calls ++ _) key = some tc2 ∧ _
    rw [findCall_append_left st.calls _ key tc h]
    exact ⟨tc, rfl, ⟨"", by simp⟩, rfl, Or.inl rfl⟩

/-- The early-completion flush: a delta carrying tool-call fragments, when
the turn has not yet emitted and the accumulated state after its fragments
passes `allToolCallsComplete`, makes the accumulator emit the assembled
calls immediately, within that very processing step. -/
theorem early_completion_flush (st : StreamState) (choice : DeltaChoice)
    (chs : List DeltaChoice)
    (hfrags : choice.toolCalls.isEmpty = false)
    (hemit : st.emitted = false)
    (hcomplete : allToolCallsComplete (choice.toolCalls.foldl upsertFragment st) = true) :
    (processStreamItem st (StreamItem.chunk (choice :: chs))).1 =
      [Emission.toolResponse
        (createToolCallResponse (choice.toolCalls.foldl upsertFragment st).calls)] := by
  have hne : (choice.toolCalls.foldl upsertFragment st).calls.isEmpty = false :=
    foldl_upsert_calls_ne_of_frags choice.toolCalls st hfrags
  have hemit2 : (choice.toolCalls.foldl upsertFragment st).emitted = false := by
    rw [foldl_upsert_emitted]; exact hemit
  simp [processStreamItem, hfrags, hcomplete, hne, hemit2]

/-- A head test survives appending on the right. -/
theorem headIs_append (l m : List Char) (c : Char) (h : headIs l c = true) :
    headIs (l ++ m) c = true := by
  cases l with
  | nil => simp [headIs] at h
  | cons a as => simpa [headIs] using h

/-- A list cannot have two different heads. -/
theorem headIs_ne (l : List Char) (c d : Char) (hc : headIs l c = true) (hne : c ≠ d) :
    headIs l d = false := by
  cases l with
  | nil => simp [headIs] at hc
  | cons a as =>
    simp only [headIs, decide_eq_true_eq] at hc
    subst hc
    simp [headIs, hne]

/-- A string that starts with a character still starts with it after an
append. -/
theorem strStartsWithChar_append (s t : String) (c : Char)
    (h : strStartsWithChar s c = true) : strStartsWithChar (s ++ t) c = true := by
  have happ : (s ++ t).data = s.data ++ t.data := rfl
  show headIs (s ++ t).data c = true
  rw [happ]
  exact headIs_append s.data t.data c h

/-- A string cannot start with two different characters. -/
theorem strStartsWithChar_ne (s : String) (c d : Char)
    (hc : strStartsWithChar s c = true) (hne : c ≠ d) :
    strStartsWithChar s d = false :=
  headIs_ne s.data c d hc hne

/-- A boolean prefix test starting with a given element forces that head. -/
theorem isPrefixOf_cons_head (a : Char) (l1 l2 : List Char)
    (h : List.isPrefixOf (a :: l1) l2 = true) : ∃ t, l2 = a :: t := by
  cases l2 with
  | nil => simp [List.isPrefixOf] at h
  | cons b t =>
    simp only [List.isPrefixOf, Bool.and_eq_true, beq_iff_eq] at h
    exact ⟨t, by rw [h.1]⟩

/-- Ending with the quote-comma sequence implies ending with a comma. -/
theorem endsWithSeq_comma (s : String) (h : strEndsWithSeq s ['"', ','] = true) :
    strEndsWithChar s ',' = true := by
  have h2 : List.isPrefixOf [',', '"'] s.data.reverse = true := h
  obtain ⟨t, ht⟩ := isPrefixOf_cons_head ',' ['"'] s.data.reverse h2
  show headIs s.data.reverse ',' = true
  rw [ht]
  simp [headIs]

/-- The repair routine recovers a value whose only defect is a missing
closing brace or bracket at the very end: when the as-is parse fails, no
trailing comma is present, the string is already trimmed, and appending the
matching closing character makes it parse, the repair returns exactly that
parse. -/
theorem repairArguments_appends_close (s : String) (close : String) (j : Json)
    (htrim : jsTrim s = s)
    (hfail : Json.parse s = none)
    (hnocomma : strEndsWithChar s ',' = false)
    (hshape :
      (strStartsWithChar s '\x7b' = true ∧ strEndsWithChar s '\x7d' = false ∧ close = "\x7d") ∨
      (strStartsWithChar s '[' = true ∧ strEndsWithChar s ']' = false ∧ close = "]"))
    (hok : Json.parse (s ++ close) = some j) :
    repairArguments s = j := by
  have hseq : strEndsWithSeq s ['"', ','] = false := by
    cases hsq : strEndsWithSeq s ['"', ','] with
    | false => rfl
    | true => exact absurd (endsWithSeq_comma s hsq) (by simp [hnocomma])
  have hstrip : stripDanglingComma s = s := by
    unfold stripDanglingComma
    rw [hnocomma, hseq]
    rfl
  rcases hshape with ⟨ho, hc, hcl⟩ | ⟨ho, hc, hcl⟩
  · subst hcl
    have hbr : closeBrace s = s ++ "\x7d" := by
      unfold closeBrace
      rw [ho, hc]
      rfl
    have hhead : strStartsWithChar (s ++ "\x7d") '[' = false :=
      strStartsWithChar_ne _ _ _ (strStartsWithChar_append s "\x7d" '\x7b' ho) (by decide)
    have hbk : closeBracket (s ++ "\x7d") = s ++ "\x7d" := by
      unfold closeBracket
      rw [hhead]
      rfl
    unfold repairArguments
    rw [hfail, htrim]
    unfold repairFixup
    rw [hstrip, hbr, hbk, hok]
  · subst hcl
    have hnb : strStartsWithChar s '\x7b' = false :=
      strStartsWithChar_ne _ _ _ ho (by decide)
    have hbr : closeBrace s = s := by
      unfold closeBrace
      rw [hnb]
      rfl
    have hbk : closeBracket s = s ++ "]" := by
      unfold closeBracket
      rw [ho, hc]
      rfl
    unfold repairArguments
    rw [hfail, htrim]
    unfold repairFixup
    rw [hstrip, hbr, hbk, hok]

/-- Dropping a not-ready entry from the tracked map leaves the flush
emission unchanged: a call that fails the readiness test contributes
nothing to `createToolCallResponse`. -/
theorem createToolCallResponse_drops_unready (cs : List (String × PendingToolCall))
    (p : String × PendingToolCall) (hbad : isToolCallReady p.2 = false) :
    createToolCallResponse cs = createToolCallResponse (cs.filter (fun q => q != p)) := by
  unfold createToolCallResponse
  have hfilter : cs.filter (fun q => isToolCallReady q.2) =
      (cs.filter (fun q => q != p)).filter (fun q => isToolCallReady q.2) := by
    induction cs with
    | nil => rfl
    | cons hd tl ih =>
      by_cases hq : hd = p
      · subst hq
        simp [List.filter_cons, hbad, ih]
      · have hne : (hd != p) = true := by simp [hq]
        simp [List.filter_cons, hne, ih]
  rw [hfilter]

/-- Over one full run (events plus terminal flush), at most one tool-call
response is emitted. -/
theorem run_flush_count_le_one (items : List StreamItem) :
    countToolResponses ((processStreamItems initStreamState items).1 ++
      (if (processStreamItems initStreamState items).2.2 then []
       else endOfStreamFlush (processStreamItems initStreamState items).2.1)) ≤ 1 := by
  obtain ⟨h1, h2, h3⟩ := processStreamItems_count items initStreamState
  rw [countToolResponses_append]
  split
  next => simpa using h2
  next =>
    unfold endOfStreamFlush
    split
    next hg =>
      have hz : countToolResponses (processStreamItems initStreamState items).1 = 0 := by
        by_contra hne
        have hem := h3 (Nat.one_le_iff_ne_zero.mpr hne)
        rw [hem] at hg
        simp at hg
      rw [hz]
      simp [countToolResponses]
    next => simpa using h2

/-!
The claims.
-/

/-- Scenario A: a first tool-call fragment at index 0 carrying id "c1" and
name "get_weather", two further fragments at index 0 carrying the argument
substrings of a location object with no id, then a finish-reason chunk. -/
def scenarioA : List StreamItem :=
  [ StreamItem.chunk [⟨none, [⟨some 0, some "c1", none, some "get_weather", none⟩], none⟩]
  , StreamItem.chunk [⟨none, [⟨some 0, none, none, none, some "\x7b\"location\":\"N"⟩], none⟩]
  , StreamItem.chunk [⟨none, [⟨some 0, none, none, none, some "YC\"\x7d"⟩], none⟩]
  , StreamItem.chunk [⟨none, [], some "tool_calls"⟩] ]

/-- Claim C1: for the delta sequence of Scenario A the streaming
accumulator produces exactly one tool-call emission, containing exactly one
FunctionCall with id "c1", name "get_weather" and args mapping "location"
to "NYC". -/
theorem claim1_scenarioA :
    processStreamResponse scenarioA =
      [Emission.toolResponse
        [⟨"c1", "get_weather", Json.obj [("location", Json.str "NYC")]⟩]] := rfl

/-- Claim C2: for every delta sequence of one streaming turn, the
accumulator emits its assembled FunctionCalls at most once — after a first
tool-call emission, no later completion trigger (early completion, a
finish-reason chunk, the DONE sentinel, stream exhaustion, or the
best-effort flush of an aborting error) produces a second one. -/
theorem claim2_tool_response_at_most_once (items : List StreamItem) :
    countToolResponses (processStreamResponse items) ≤ 1 ∧
    countToolResponses (processStreamAborted items) ≤ 1 :=
  ⟨run_flush_count_le_one items, run_flush_count_le_one items⟩

/-- A delta carrying one tool-call fragment that sets a name but no
argument text. -/
def c3NameOnlyItem : StreamItem :=
  StreamItem.chunk [⟨none, [⟨some 0, some "c1", none, some "get_data", none⟩], none⟩]

/-- Claim C3 counterexample: after this delta every tracked pending call
has a non-empty name and an empty arguments buffer (which the claim counts
as complete), yet the accumulator emits nothing at that step — the code's
early-completion check requires a non-empty arguments buffer. -/
theorem claim3_counterexample :
    (processStreamItems initStreamState [c3NameOnlyItem]).1 = [] ∧
    ((processStreamItems initStreamState [c3NameOnlyItem]).2.1.calls.all
      (fun p => truthy p.2.name &&
        ((p.2.arguments.getD "").isEmpty || isValidJson (p.2.arguments.getD "")))) = true ∧
    (processStreamItems initStreamState [c3NameOnlyItem]).2.1.calls.isEmpty = false :=
  ⟨rfl, rfl, rfl⟩

/-- Claim C3 (amended): after processing a delta with tool-call fragments,
if no emission has yet occurred and every tracked pending call has a truthy
name and a truthy (hence non-empty) arguments buffer that parses as valid
JSON, the accumulator flushes immediately, within that very step. -/
theorem claim3_early_completion_flush (st : StreamState) (choice : DeltaChoice)
    (chs : List DeltaChoice)
    (hfrags : choice.toolCalls.isEmpty = false)
    (hemit : st.emitted = false)
    (hcomplete : allToolCallsComplete (choice.toolCalls.foldl upsertFragment st) = true) :
    (processStreamItem st (StreamItem.chunk (choice :: chs))).1 =
      [Emission.toolResponse
        (createToolCallResponse (choice.toolCalls.foldl upsertFragment st).calls)] :=
  early_completion_flush st choice chs hfrags hemit hcomplete

/-- A delta with one complete tool-call fragment (name and full JSON
arguments in one fragment). -/
def c3CompleteChoice : DeltaChoice :=
  ⟨none, [⟨some 0, some "w1", none, some "f", some "\x7b\"x\":1\x7d"⟩], none⟩

/-- Witness for the amended C3 at a concrete complete fragment. -/
theorem claim3_early_completion_flush_witness :
    (processStreamItem initStreamState (StreamItem.chunk [c3CompleteChoice])).1 =
      [Emission.toolResponse
        (createToolCallResponse
          (c3CompleteChoice.toolCalls.foldl upsertFragment initStreamState).calls)] :=
  claim3_early_completion_flush initStreamState c3CompleteChoice [] rfl rfl rfl

/-- A turn whose only tool call accumulates an argument string that is not
parseable JSON, then the DONE sentinel. -/
def c4Items : List StreamItem :=
  [ StreamItem.chunk [⟨none, [⟨some 0, some "c9", none, some "f", some "\x7b\"x\":"⟩], none⟩]
  , StreamItem.doneSentinel ]

/-- Claim C4 counterexample: the turn completes, but the call with
unparsable arguments is dropped — the terminal emission carries zero
function calls instead of a degraded one. -/
theorem claim4_counterexample :
    processStreamResponse c4Items = [Emission.toolResponse []] := rfl

/-- Claim C4 (amended): a tracked call that fails the readiness test (in
particular one whose accumulated argument string is not parseable JSON) is
filtered out of the flush emission: removing it from the tracked map leaves
`createToolCallResponse` unchanged.  The degraded-arguments repair applies
only to calls that already pass the readiness test. -/
theorem claim4_unready_dropped (cs : List (String × PendingToolCall))
    (p : String × PendingToolCall) (hbad : isToolCallReady p.2 = false) :
    createToolCallResponse cs = createToolCallResponse (cs.filter (fun q => q != p)) :=
  createToolCallResponse_drops_unready cs p hbad

/-- A ready tracked call (name and complete JSON arguments). -/
def c4ReadyCall : PendingToolCall := ⟨"a1", "function", some "f", some "\x7b\x7d"⟩

/-- A not-ready tracked call (name set, truncated JSON arguments). -/
def c4BadCall : PendingToolCall := ⟨"a2", "function", some "g", some "\x7b\"x\":"⟩

/-- Witness for the amended C4 at a concrete two-call map. -/
theorem claim4_unready_dropped_witness :
    isToolCallReady c4BadCall = false ∧
    createToolCallResponse [("tool_0", c4ReadyCall), ("tool_1", c4BadCall)] =
      createToolCallResponse ([("tool_0", c4ReadyCall), ("tool_1", c4BadCall)].filter
        (fun q => q != ("tool_1", c4BadCall))) :=
  ⟨rfl, claim4_unready_dropped _ _ rfl⟩

/-- A fragment for slot 0 supplying the name "alpha". -/
def c5FragAlpha : ToolCallFragment := ⟨some 0, none, none, some "alpha", none⟩

/-- A later fragment for the same slot supplying the name "beta". -/
def c5FragBeta : ToolCallFragment := ⟨some 0, none, none, some "beta", none⟩

/-- Claim C5 counterexample: the name of slot 0's pending call is set to
"alpha" by the first fragment and then changed to "beta" by a later
fragment for the same slot — names are overwritten, not write-once. -/
theorem claim5_counterexample :
    (findCall (upsertFragment initStreamState c5FragAlpha).calls "tool_0").map
      PendingToolCall.name = some (some "alpha") ∧
    (findCall (upsertFragment (upsertFragment initStreamState c5FragAlpha) c5FragBeta).calls
      "tool_0").map PendingToolCall.name = some (some "beta") :=
  ⟨rfl, rfl⟩

/-- Claim C5 (amended): for every pending call tracked by the accumulator,
processing any further fragment preserves the entry and its id, only ever
extends its arguments buffer by appending (never replacing or shrinking
it), and either leaves the name unchanged or overwrites it with a name the
fragment itself supplies (last writer wins, rather than write-once). -/
theorem claim5_pending_call_evolution (st : StreamState) (frag : ToolCallFragment)
    (key : String) (tc : PendingToolCall) (h : findCall st.calls key = some tc) :
    ∃ tc2, findCall (upsertFragment st frag).calls key = some tc2 ∧
      (∃ ext, tc2.arguments.getD "" = tc.arguments.getD "" ++ ext) ∧
      tc2.id = tc.id ∧
      (tc2.name = tc.name ∨ (truthy frag.name = true ∧ tc2.name = frag.name)) :=
  pending_call_evolution st frag key tc h

/-- A state tracking one pending call with a partially accumulated argument
buffer. -/
def c5State : StreamState :=
  ⟨[("tool_0", ⟨"c1", "function", some "f", some "\x7b\"a\":"⟩)], false, 0⟩

/-- A fragment appending the rest of the argument text to slot 0. -/
def c5ArgsFrag : ToolCallFragment := ⟨some 0, none, none, none, some "1\x7d"⟩

/-- Witness for the amended C5 at a concrete tracked call and fragment. -/
theorem claim5_pending_call_evolution_witness :
    ∃ tc2, findCall (upsertFragment c5State c5ArgsFrag).calls "tool_0" = some tc2 ∧
      (∃ ext, tc2.arguments.getD "" =
        (PendingToolCall.mk "c1" "function" (some "f") (some "\x7b\"a\":")).arguments.getD ""
          ++ ext) ∧
      tc2.id = (PendingToolCall.mk "c1" "function" (some "f") (some "\x7b\"a\":")).id ∧
      (tc2.name = (PendingToolCall.mk "c1" "function" (some "f") (some "\x7b\"a\":")).name ∨
        (truthy c5ArgsFrag.name = true ∧ tc2.name = c5ArgsFrag.name)) :=
  claim5_pending_call_evolution c5State c5ArgsFrag "tool_0"
    (PendingToolCall.mk "c1" "function" (some "f") (some "\x7b\"a\":")) rfl

/-- Claim C6 counterexample: for the input that opens with a brace and
lacks its matching close but already ends in a (nested) closing brace,
appending the minimal closing character yields a parseable object, yet the
repair routine returns the raw-fallback wrapper instead; and on the input
"42" the routine returns a number, not a mapping. -/
theorem claim6_counterexample :
    Json.parse ("\x7b\"a\":\x7b\"b\":1\x7d" ++ "\x7d")
      = some (Json.obj [("a", Json.obj [("b", Json.num "1")])]) ∧
    repairArguments "\x7b\"a\":\x7b\"b\":1\x7d"
      = Json.obj [("_raw_arguments", Json.str "\x7b\"a\":\x7b\"b\":1\x7d")] ∧
    repairArguments "42" = Json.num "42" :=
  ⟨rfl, rfl, rfl⟩

/-- Claim C6 (amended): when the as-is parse fails, the (trimmed) argument
string opens with a brace or bracket, does not end with a comma, does not
already end with the matching closing character, and appending that closing
character makes it parse, the repair routine returns exactly that parse;
for every input the routine totally returns some JSON value (never throws),
though not necessarily a mapping. -/
theorem claim6_repair_appends_close (s : String) (close : String) (j : Json)
    (htrim : jsTrim s = s)
    (hfail : Json.parse s = none)
    (hnocomma : strEndsWithChar s ',' = false)
    (hshape :
      (strStartsWithChar s '\x7b' = true ∧ strEndsWithChar s '\x7d' = false ∧ close = "\x7d") ∨
      (strStartsWithChar s '[' = true ∧ strEndsWithChar s ']' = false ∧ close = "]"))
    (hok : Json.parse (s ++ close) = some j) :
    repairArguments s = j :=
  repairArguments_appends_close s close j htrim hfail hnocomma hshape hok

/-- Witness for the amended C6 at a concrete truncated object. -/
theorem claim6_repair_appends_close_witness :
    repairArguments "\x7b\"location\":\"NYC\"" = Json.obj [("location", Json.str "NYC")] :=
  claim6_repair_appends_close "\x7b\"location\":\"NYC\"" "\x7d"
    (Json.obj [("location", Json.str "NYC")]) rfl rfl rfl
    (Or.inl ⟨rfl, rfl, rfl⟩) rfl

/-- A delta whose content is whitespace only. -/
def c7WhitespaceItem : StreamItem := StreamItem.chunk [⟨some "   ", [], none⟩]

/-- Claim C7 counterexample: a delta bearing non-empty (whitespace-only)
text produces no output at all — its text is withheld, because the source
forwards content only when its trim is non-empty. -/
theorem claim7_counterexample :
    processStreamResponse [c7WhitespaceItem] = [] ∧
    ("   " : String).isEmpty = false :=
  ⟨rfl, rfl⟩

/-- Claim C7 (amended): the text fragments a streaming turn forwards are
exactly the contents of the tool-call-free deltas whose text is non-empty
after trimming, in arrival order, each forwarded at its own delta and never
delayed behind tool-call accumulation; text arriving in a delta that
carries tool-call fragments, whitespace-only text, and anything after the
terminal event are discarded. -/
theorem claim7_text_trace (items : List StreamItem) :
    textEmissions (processStreamResponse items) = specTextTrace items := by
  unfold processStreamResponse
  rw [textEmissions_append]
  have h := textEmissions_processStreamItems items initStreamState
  split
  next => simpa [textEmissions] using h
  next => rw [textEmissions_endOfStreamFlush]; simpa using h

/-- Scenario D: a turn with only text deltas, terminated by a finish
reason. -/
def scenarioD : List StreamItem :=
  [ StreamItem.chunk [⟨some "Hello", [], none⟩]
  , StreamItem.chunk [⟨none, [], some "stop"⟩] ]

/-- Claim C8: a turn in which no delta carries tool-call fragments (so zero
pending calls are tracked at every flush trigger) produces zero tool-call
emissions: every flush is a no-op and no empty function-call response is
surfaced. -/
theorem claim8_no_fragments_no_flush (items : List StreamItem)
    (h : items.all (fun it => !itemHasToolFragments it) = true) :
    countToolResponses (processStreamResponse items) = 0 := by
  obtain ⟨h0, hcalls⟩ := processStreamItems_no_frags items initStreamState h rfl
  unfold processStreamResponse
  rw [countToolResponses_append, h0]
  split
  next => rfl
  next =>
    have hflush : endOfStreamFlush (processStreamItems initStreamState items).2.1 = [] := by
      unfold endOfStreamFlush
      rw [hcalls]
      rfl
    rw [hflush]
    rfl

/-- Witness for C8 at Scenario D. -/
theorem claim8_no_fragments_no_flush_witness :
    (scenarioD.all (fun it => !itemHasToolFragments it) = true) ∧
    countToolResponses (processStreamResponse scenarioD) = 0 :=
  ⟨rfl, claim8_no_fragments_no_flush scenarioD rfl⟩

/-- A request whose caller supplied a generation config but no reasoning
value. -/
def c9Request : GenRequestModel := ⟨some ⟨none⟩⟩

/-- Claim C9 counterexample: for a request whose caller supplied no
reasoning value at all, the streaming wire body nevertheless carries
`enable_thinking = false` (the converter hard-codes it whenever a
generation config is present); and the older generator variant carries the
field even on the non-streaming body. -/
theorem claim9_counterexample :
    (c9Request.config.map GenConfigModel.thinking) = some none ∧
    (generateContentStreamBody c9Request).enable_thinking = some false ∧
    (generateContentBodyLegacy c9Request).enable_thinking = some false :=
  ⟨rfl, rfl, rfl⟩

/-- Claim C9 (amended): the current generator's non-streaming body never
carries the reasoning toggle, and its streaming body carries it exactly
when the request has a generation config — then always with the hard-coded
value `false`, never a caller-supplied one; the older generator variant
hard-codes `enable_thinking: false` into both the streaming and the
non-streaming body. -/
theorem claim9_enable_thinking_hardcoded (req : GenRequestModel) :
    (generateContentBody req).enable_thinking = none ∧
    (generateContentStreamBody req).enable_thinking =
      (match req.config with
       | some _ => some false
       | none => none) ∧
    (generateContentBodyLegacy req).enable_thinking = some false ∧
    (generateContentStreamBodyLegacy req).enable_thinking = some false :=
  ⟨rfl, rfl, rfl, rfl⟩

/-- Claim C10: a delta that carries tool-call fragments forwards no text at
all (its content, if any, is discarded), and its whole effect on the state
is the accumulation of its fragments. -/
theorem claim10_tool_chunk_discards_text (st : StreamState) (choice : DeltaChoice)
    (chs : List DeltaChoice) (hfrags : choice.toolCalls.isEmpty = false) :
    textEmissions (processStreamItem st (StreamItem.chunk (choice :: chs))).1 = [] ∧
    (processStreamItem st (StreamItem.chunk (choice :: chs))).2.1.calls =
      (choice.toolCalls.foldl upsertFragment st).calls := by
  simp only [processStreamItem]
  rw [if_pos (by rw [hfrags]; rfl : (!choice.toolCalls.isEmpty) = true)]
  split
  next => exact ⟨rfl, rfl⟩
  next => exact ⟨rfl, rfl⟩

/-- A delta carrying both non-empty text and a tool-call fragment. -/
def c10Choice : DeltaChoice :=
  ⟨some "mixed text", [⟨some 0, some "m1", none, some "f", some "\x7b\x7d"⟩], none⟩

/-- Witness for C10 at a concrete mixed delta. -/
theorem claim10_tool_chunk_discards_text_witness :
    textEmissions (processStreamItem initStreamState (StreamItem.chunk [c10Choice])).1 = [] ∧
    (processStreamItem initStreamState (StreamItem.chunk [c10Choice])).2.1.calls =
      (c10Choice.toolCalls.foldl upsertFragment initStreamState).calls :=
  claim10_tool_chunk_discards_text initStreamState c10Choice [] rfl
